import Mathlib

/-!
Verification of the vector-retrieval and personalization engine
(`backend/ml/retrieval` and `backend/ml/user_modeling`).

Python float arrays are modelled as lists of exact rationals.  FAISS and
numpy are third-party native libraries; their operations (`IndexFlatL2`
search, `np.linalg.norm`, elementwise arithmetic) are modelled from their
documented semantics where the Python code calls into them.  Stateful
methods are embedded as explicit state-passing functions; Python
exceptions become `Except.error`.
-/

namespace Knytt

/-- Embedding vectors: the Python code uses numpy float arrays, modelled
here as lists of exact rationals. -/
abbrev Vec := List ℚ

/-- Dot product `np.dot(a, b)` (over the common prefix of the two lists;
the code only applies it to equal-length arrays). -/
def dot : Vec → Vec → ℚ
  | a :: as, b :: bs => a * b + dot as bs
  | _, _ => 0

/-- Sum of squared entries: the square of the L2 norm `np.linalg.norm v`. -/
def normSq : Vec → ℚ
  | [] => 0
  | a :: as => a * a + normSq as

/-- Squared L2 distance between two vectors; the metric of a FAISS
`IndexFlatL2` (which reports squared distances). -/
def distSq : Vec → Vec → ℚ
  | a :: as, b :: bs => (a - b) * (a - b) + distSq as bs
  | _, _ => 0

/-- Exact square root on ℚ, when one exists.  `np.linalg.norm` computes a
real square root; a rational model represents it exactly exactly when the
argument is a perfect rational square — which holds at every input the
theorems below evaluate. -/
def ratSqrt (x : ℚ) : Option ℚ :=
  let ns := Nat.sqrt x.num.toNat
  let ds := Nat.sqrt x.den
  if 0 ≤ x.num ∧ ns * ns = x.num.toNat ∧ ds * ds = x.den then some ((ns : ℚ) / (ds : ℚ))
  else none

/-- Scaling a vector by the reciprocal of its L2 norm: `v / np.linalg.norm(v)`.
When the exact norm is irrational it is not representable in ℚ and the
vector is returned unscaled; no theorem below depends on that fallback
branch (they evaluate this only at perfect-square norms). -/
def divByNorm (v : Vec) : Vec :=
  match ratSqrt (normSq v) with
  | some n => v.map (fun c => c / n)
  | none => v

/-- `SimilaritySearch._distance_to_similarity`: converts an L2 distance to a
similarity score.  For the normalized-embeddings configuration it computes
`cos = 1 - d^2/2`, clamps to [-1, 1] and maps to [0, 1]; otherwise it
returns `1 / (1 + d)`. -/
def distance_to_similarity (normalize : Bool) (distance : ℚ) : ℚ :=
  if normalize = false then 1 / (1 + distance)
  else
    let cosine_sim := 1 - distance ^ 2 / 2
    let clamped := max (-1) (min 1 cosine_sim)
    (clamped + 1) / 2

/-- `WarmUserEmbedding.update_embedding`: EWMA update of a user embedding.
The Python body computes `adjusted_alpha = self.alpha / (1.0 + interaction_weight - 1.0)`;
a zero divisor raises `ZeroDivisionError`, modelled as `Except.error`.
`np.clip(x, 0.0, 1.0)` is `min 1 (max 0 x)`. -/
def update_embedding (alpha : ℚ) (normalize : Bool)
    (current_embedding interaction_embedding : Vec) (interaction_weight : ℚ) :
    Except String Vec :=
  if 1 + interaction_weight - 1 = 0 then Except.error "ZeroDivisionError"
  else
    let adjusted_alpha := min 1 (max 0 (alpha / (1 + interaction_weight - 1)))
    let new_embedding := List.zipWith
      (fun c i => adjusted_alpha * c + (1 - adjusted_alpha) * i)
      current_embedding interaction_embedding
    Except.ok (if normalize then divByNorm new_embedding else new_embedding)

/-- Result dictionary of `UserEmbeddingBlender.blend`. -/
structure BlendResult where
  blended_embedding : Option Vec
  has_long_term : Bool
  has_session : Bool
  alpha : ℚ
  context : Option String
  success : Bool
  blend_type : String
  error : Option String
  deriving Repr, DecidableEq

/-- `UserEmbeddingBlender._get_alpha_for_context`: context-specific blend
weights, falling back to the configured `long_term_alpha`. -/
def get_alpha_for_context (long_term_alpha : ℚ) (context : Option String) : ℚ :=
  match context with
  | some "feed" => 7/10
  | some "search" => 3/10
  | some "similar" => 9/10
  | some "explore" => 1/2
  | some "onboard" => 1
  | _ => long_term_alpha

/-- `UserEmbeddingBlender.blend`: combines long-term and session embeddings.
Both present: EWMA-style mix, normalized if configured.  Exactly one
present: that embedding is returned as-is.  Neither: failure result with
`error = "no_embeddings"`. -/
def blend (normalize : Bool) (long_term_alpha : ℚ)
    (long_term_embedding session_embedding : Option Vec)
    (alphaArg : Option ℚ) (context : Option String) : BlendResult :=
  let alpha := match alphaArg with
    | none => get_alpha_for_context long_term_alpha context
    | some a => a
  match long_term_embedding, session_embedding with
  | some lt, some se =>
      let blended := List.zipWith (fun a b => alpha * a + (1 - alpha) * b) lt se
      { blended_embedding := some (if normalize then divByNorm blended else blended),
        has_long_term := true, has_session := true, alpha := alpha, context := context,
        success := true, blend_type := "full", error := none }
  | some lt, none =>
      { blended_embedding := some lt, has_long_term := true, has_session := false,
        alpha := alpha, context := context,
        success := true, blend_type := "long_term_only", error := none }
  | none, some se =>
      { blended_embedding := some se, has_long_term := false, has_session := true,
        alpha := alpha, context := context,
        success := true, blend_type := "session_only", error := none }
  | none, none =>
      { blended_embedding := none, has_long_term := false, has_session := false,
        alpha := alpha, context := context,
        success := false, blend_type := "none", error := some "no_embeddings" }

/-- A Python `dict` built from a list of key/value pairs in insertion order;
entries added later overwrite earlier ones, so lookup scans later entries
first. -/
def dictGet {α β : Type} [DecidableEq α] : List (α × β) → α → Option β
  | [], _ => none
  | p :: ps, k =>
    match dictGet ps k with
    | some v => some v
    | none => if p.1 = k then some p.2 else none

/-- Elementwise sum of a nonempty family of equal-length vectors. -/
def vecSum : List Vec → Vec
  | [] => []
  | [v] => v
  | v :: vs => List.zipWith (· + ·) v (vecSum vs)

/-- `np.mean(vs, axis=0)`: elementwise mean. -/
def vecMean (vs : List Vec) : Vec :=
  (vecSum vs).map (fun c => c / (vs.length : ℚ))

/-- `ColdStartEmbedding.from_product_selections`: mean of the selected
product embeddings, normalized if configured; raises on an empty list. -/
def from_product_selections (normalize : Bool) (product_embeddings : List Vec) :
    Except String Vec :=
  if product_embeddings = [] then Except.error "Need at least one product selection"
  else
    let user_embedding := vecMean product_embeddings
    Except.ok (if normalize then divByNorm user_embedding else user_embedding)

/-- Result dictionary of `ColdStartEmbedding.from_style_quiz`. -/
structure QuizResult where
  user_embedding : Option Vec
  num_selections : ℕ
  success : Bool
  missing_ids : List String
  valid_selections : ℕ
  error : Option String
  deriving Repr, DecidableEq

/-- `ColdStartEmbedding.from_style_quiz`: looks up the selected product ids
in the embeddings dict, reports a failure result when no valid selection
remains, and otherwise proceeds with the mean of the valid selections.
A count below `min_quiz_selections` only produces a log warning. -/
def from_style_quiz (normalize : Bool) (min_quiz_selections : ℕ)
    (selected_product_ids : List String)
    (product_embeddings_dict : List (String × Vec)) : QuizResult :=
  let selected_embeddings := selected_product_ids.filterMap
    (fun pid => dictGet product_embeddings_dict pid)
  let missing_ids := selected_product_ids.filter
    (fun pid => (dictGet product_embeddings_dict pid).isNone)
  if selected_embeddings = [] then
    { user_embedding := none, num_selections := selected_product_ids.length,
      success := false, missing_ids := missing_ids,
      valid_selections := selected_embeddings.length,
      error := some "no_valid_selections" }
  else
    match from_product_selections normalize selected_embeddings with
    | Except.ok v =>
        { user_embedding := some v, num_selections := selected_product_ids.length,
          success := true, missing_ids := missing_ids,
          valid_selections := selected_embeddings.length, error := none }
    | Except.error e =>
        { user_embedding := none, num_selections := selected_product_ids.length,
          success := false, missing_ids := missing_ids,
          valid_selections := selected_embeddings.length, error := some e }

/-- `RankingConfig`: signal weights and popularity parameters, with the
shipped defaults. -/
structure RankingConfigM where
  view_weight : ℚ := 1
  like_weight : ℚ := 2
  cart_weight : ℚ := 3
  purchase_weight : ℚ := 5
  popularity_half_life_days : ℕ := 30
  deriving Repr, DecidableEq

/-- Engagement statistics of one product; `days_since_last_interaction`
models `datetime.utcnow() - last_interaction` in whole days (`none` when no
last-interaction timestamp is given). -/
structure ProductStats where
  views : ℕ := 0
  likes : ℕ := 0
  carts : ℕ := 0
  purchases : ℕ := 0
  days_since_last_interaction : Option ℕ := none
  deriving Repr, DecidableEq

/-- `PopularityScorer._calculate_recency_score`: `max(0.01, 0.5 ** (days / half_life))`.
The float exponent `days / half_life` yields an irrational decay unless the
half-life divides the day count; the model returns `none` in that
non-representable case (all theorems below evaluate exact cases only). -/
def calculate_recency_score (half_life : ℕ) (days_ago : ℕ) : Option ℚ :=
  if half_life ≠ 0 ∧ days_ago % half_life = 0 then
    some (max (1/100) ((1/2 : ℚ) ^ (days_ago / half_life)))
  else none

/-- `PopularityScorer.score_product`: weighted engagement sum, multiplied by
the recency decay when a last-interaction timestamp is present. -/
def score_product (cfg : RankingConfigM) (s : ProductStats) : Option ℚ :=
  let engagement := (s.views : ℚ) * cfg.view_weight + (s.likes : ℚ) * cfg.like_weight
    + (s.carts : ℚ) * cfg.cart_weight + (s.purchases : ℚ) * cfg.purchase_weight
  match s.days_since_last_interaction with
  | none => some engagement
  | some d =>
      match calculate_recency_score cfg.popularity_half_life_days d with
      | none => none
      | some r => some (engagement * r)

/-- The per-product scoring loop of `PopularityScorer.score_batch`. -/
def score_batch_raw (cfg : RankingConfigM) :
    List (ℕ × ProductStats) → Option (List (ℕ × ℚ))
  | [] => some []
  | (pid, s) :: rest =>
    match score_product cfg s, score_batch_raw cfg rest with
    | some sc, some rs => some ((pid, sc) :: rs)
    | _, _ => none

/-- Maximum of a nonempty list of rationals (`max(scores.values())`). -/
def maxQ : List ℚ → ℚ
  | [] => 0
  | [x] => x
  | x :: xs => max x (maxQ xs)

/-- `PopularityScorer.score_batch`: raw scores, then normalization by the
maximum score when that maximum is positive. -/
def score_batch (cfg : RankingConfigM) (product_stats : List (ℕ × ProductStats)) :
    Option (List (ℕ × ℚ)) :=
  match score_batch_raw cfg product_stats with
  | none => none
  | some scores =>
      if scores = [] then some scores
      else
        let max_score := maxQ (scores.map Prod.snd)
        if 0 < max_score then some (scores.map (fun pr => (pr.1, pr.2 / max_score)))
        else some scores

/-- One row of the `product_embeddings` query in
`FAISSIndexManager.load_embeddings_from_db` (the table has a unique index
on `(product_id, embedding_type)`, so product ids are distinct within the
queried `embedding_type`). -/
structure Row where
  product_id : ℕ
  embedding : Vec
  deriving Repr, DecidableEq

/-- `FAISSIndexManager.load_embeddings_from_db`: raises when the query
returns no rows, otherwise yields the embeddings and product ids in row
order. -/
def load_embeddings_from_db (rows : List Row) : Except String (List Vec × List ℕ) :=
  if rows.length = 0 then
    Except.error "No product embeddings found in database"
  else
    Except.ok (rows.map Row.embedding, rows.map Row.product_id)

/-- `FAISSIndexBuilder.build_index`: validates the input (nonempty, uniform
dimension, matching lengths) and returns the index vectors together with
the position-to-product-id mapping `{i: pid for i, pid in enumerate(product_ids)}`. -/
def build_index (dimension : ℕ) (embeddings : List Vec) (product_ids : List ℕ) :
    Except String (List Vec × List (ℕ × ℕ)) :=
  if embeddings.length = 0 then
    Except.error "Cannot build index with empty embeddings"
  else if ¬ (∀ e ∈ embeddings, e.length = dimension) then
    Except.error "Embedding dimension mismatch"
  else if embeddings.length ≠ product_ids.length then
    Except.error "Mismatch between embeddings and product_ids"
  else
    Except.ok (embeddings, product_ids.enum)

/-- The mutable state of the `FAISSIndexManager` singleton that the claims
concern: the active index vectors, both id mappings and the rebuild
timestamp (an abstract clock value). -/
structure ManagerState where
  index : Option (List Vec)
  id_mapping : List (ℕ × ℕ)
  reverse_mapping : List (ℕ × ℕ)
  last_rebuild : Option ℕ
  deriving Repr, DecidableEq

/-- `FAISSIndexManager.build_index_from_db`: loads the embeddings and
builds the index, and only then replaces the manager's state; an exception
raised by the load or build step propagates before any field is
assigned. -/
def build_index_from_db (dimension : ℕ) (st : ManagerState) (rows : List Row)
    (now : ℕ) : Except String ManagerState :=
  match load_embeddings_from_db rows with
  | Except.error e => Except.error e
  | Except.ok (embeddings, product_ids) =>
    match build_index dimension embeddings product_ids with
    | Except.error e => Except.error e
    | Except.ok (vecs, id_mapping) =>
      Except.ok
        { st with
          index := some vecs
          id_mapping := id_mapping
          reverse_mapping := id_mapping.map (fun pr => (pr.2, pr.1))
          last_rebuild := some now }

/-- Python exception semantics around the state-mutating rebuild: on
success the new state is installed, on an exception the old state is kept
and the error message propagates to the caller. -/
def runBuild (dimension : ℕ) (st : ManagerState) (rows : List Row) (now : ℕ) :
    ManagerState × Option String :=
  match build_index_from_db dimension st rows now with
  | Except.ok st2 => (st2, none)
  | Except.error e => (st, some e)

/-- `FAISSIndexManager.load_index_from_disk` (success path): installs the
stored vectors and mapping, rebuilds the reverse mapping, and takes
`last_rebuild` from the metadata `created_at` when present, else from the
current time. -/
def load_index_from_disk (st : ManagerState) (stored_vecs : List Vec)
    (stored_mapping : List (ℕ × ℕ)) (created_at : Option ℕ) (now : ℕ) : ManagerState :=
  { st with
    index := some stored_vecs
    id_mapping := stored_mapping
    reverse_mapping := stored_mapping.map (fun pr => (pr.2, pr.1))
    last_rebuild := some (created_at.getD now) }

/-- `FAISSIndexManager.reset`. -/
def reset (st : ManagerState) : ManagerState :=
  { st with
    index := none
    id_mapping := []
    reverse_mapping := []
    last_rebuild := none }

/-- The number of entries of a Python dict built from the pair list `ps`
(later duplicates overwrite, so it is the number of distinct keys). -/
def dictSize {α β : Type} [DecidableEq α] (ps : List (α × β)) : ℕ :=
  (ps.map Prod.fst).dedup.length

/-- The fields of `FAISSIndexManager.get_stats` the claims concern. -/
structure Stats where
  status : String
  num_products : ℕ
  last_rebuild : Option ℕ
  deriving Repr, DecidableEq

/-- `FAISSIndexManager.get_stats`: `not_loaded` marker without an index,
otherwise the product count and last-rebuild timestamp. -/
def get_stats (st : ManagerState) : Stats :=
  match st.index with
  | none => { status := "not_loaded", num_products := 0, last_rebuild := none }
  | some _ =>
      { status := "loaded"
        num_products := dictSize st.id_mapping
        last_rebuild := st.last_rebuild }

/-- The documented index-snapshot invariant: `id_mapping` and
`reverse_mapping` are exact inverses and the vector count equals the
`id_mapping` entry count. -/
def MappingInv (st : ManagerState) : Prop :=
  (∀ i p, dictGet st.id_mapping i = some p → dictGet st.reverse_mapping p = some i) ∧
  (∀ p i, dictGet st.reverse_mapping p = some i → dictGet st.id_mapping i = some p) ∧
  (∀ vecs, st.index = some vecs → vecs.length = dictSize st.id_mapping)

/-- The `SearchResult` dataclass: product, raw distance, converted
similarity and result rank. -/
structure SearchResult where
  product_id : ℕ
  distance : ℚ
  similarity : ℚ
  rank : ℕ
  deriving Repr, DecidableEq

/-- Ordering of FAISS search output entries `(squared distance, position)`:
increasing distance, ties resolved by position. -/
def entryLe (x y : ℚ × ℕ) : Prop :=
  x.1 < y.1 ∨ (x.1 = y.1 ∧ x.2 ≤ y.2)

instance entryLeDec : DecidableRel entryLe := fun x y =>
  inferInstanceAs (Decidable (x.1 < y.1 ∨ (x.1 = y.1 ∧ x.2 ≤ y.2)))

instance : IsTotal (ℚ × ℕ) entryLe :=
  ⟨by
    intro a b
    rcases lt_trichotomy a.1 b.1 with h | h | h
    · exact Or.inl (Or.inl h)
    · rcases Nat.le_total a.2 b.2 with h2 | h2
      · exact Or.inl (Or.inr ⟨h, h2⟩)
      · exact Or.inr (Or.inr ⟨h.symm, h2⟩)
    · exact Or.inr (Or.inl h)⟩

instance : IsTrans (ℚ × ℕ) entryLe :=
  ⟨by
    intro a b c hab hbc
    rcases hab with hab | ⟨hab1, hab2⟩
    · rcases hbc with hbc | ⟨hbc1, hbc2⟩
      · exact Or.inl (lt_trans hab hbc)
      · exact Or.inl (hbc1 ▸ hab)
    · rcases hbc with hbc | ⟨hbc1, hbc2⟩
      · exact Or.inl (hab1 ▸ hbc)
      · exact Or.inr ⟨hab1.trans hbc1, le_trans hab2 hbc2⟩⟩

instance : IsAntisymm (ℚ × ℕ) entryLe :=
  ⟨by
    intro a b hab hba
    rcases hab with hab | ⟨hab1, hab2⟩
    · rcases hba with hba | ⟨hba1, hba2⟩
      · exact absurd (lt_trans hab hba) (lt_irrefl _)
      · exact absurd hab (hba1 ▸ lt_irrefl _)
    · rcases hba with hba | ⟨hba1, hba2⟩
      · exact absurd hba (hab1 ▸ lt_irrefl _)
      · exact Prod.ext hab1 (le_antisymm hab2 hba2)⟩

/-- Modelled from the spec: `faiss.IndexFlatL2.search` returns, for a
query, the `k` nearest stored vectors as `(squared L2 distance, position)`
pairs in order of increasing distance; ties are resolved
deterministically by position. -/
def index_search (vectors : List Vec) (query : Vec) (k : ℕ) : List (ℚ × ℕ) :=
  (List.insertionSort entryLe
    (vectors.enum.map (fun iv => (distSq query iv.2, iv.1)))).take k

/-- `SimilaritySearch._normalize_vector`: leaves the vector unchanged when
its norm is below `1e-8`, else divides by the norm.  The guard is stated
on the squared norm (`norm < 1e-8` iff `normSq < 1e-16`). -/
def normalize_vector (v : Vec) : Vec :=
  if normSq v < 1/10^16 then v else divByNorm v

/-- The guard `min_similarity is not None and similarity < min_similarity`. -/
def below_min_similarity (min_similarity : Option ℚ) (similarity : ℚ) : Bool :=
  match min_similarity with
  | some t => decide (similarity < t)
  | none => false

/-- `SimilaritySearch._format_results`: walks the zipped distance/index
arrays with `enumerate`, keeping the enumeration position as `rank`;
skips `-1` indices and positions missing from the id mapping; drops
results below the similarity threshold.  Surviving results keep their raw
rank. -/
def format_results (normalize : Bool) (distances : List ℚ) (indices : List ℤ)
    (id_mapping : List (ℕ × ℕ)) (min_similarity : Option ℚ) : List SearchResult :=
  ((distances.zip indices).enum).filterMap (fun ri =>
    if ri.2.2 = -1 then none
    else
      match dictGet id_mapping ri.2.2.toNat with
      | none => none
      | some product_id =>
        let similarity := distance_to_similarity normalize ri.2.1
        if below_min_similarity min_similarity similarity then none
        else some (SearchResult.mk product_id ri.2.1 similarity ri.1))

/-- `SimilaritySearch.search` against a loaded index (vectors plus id
mapping): normalizes the query when configured, caps `k` at the index
size, runs the FAISS search and formats the raw arrays. -/
def search (normalize : Bool) (vectors : List Vec) (id_mapping : List (ℕ × ℕ))
    (query : Vec) (k : ℕ) (min_similarity : Option ℚ) : List SearchResult :=
  let q := if normalize then normalize_vector query else query
  let k2 := min k vectors.length
  let pairs := index_search vectors q k2
  format_results normalize (pairs.map Prod.fst) (pairs.map (fun p => (p.2 : ℤ)))
    id_mapping min_similarity

/-- The re-ranking loop `for i, result in enumerate(results): result.rank = i`. -/
def reRank (results : List SearchResult) : List SearchResult :=
  results.enum.map (fun ir =>
    SearchResult.mk ir.2.product_id ir.2.distance ir.2.similarity ir.1)

/-- `SimilaritySearch.search_by_product_id`: resolves the product's FAISS
position and vector, searches with `k+1` when excluding self, then filters
out the product itself, truncates to `k` and re-ranks 0-based. -/
def search_by_product_id (normalize : Bool) (vectors : List Vec)
    (id_mapping reverse_mapping : List (ℕ × ℕ)) (product_id : ℕ) (k : ℕ)
    (exclude_self : Bool) (min_similarity : Option ℚ) :
    Except String (List SearchResult) :=
  match dictGet reverse_mapping product_id with
  | none => Except.error "Product ID not found in FAISS index"
  | some faiss_idx =>
    match vectors[faiss_idx]? with
    | none => Except.error "reconstruct failed"
    | some vec =>
      let search_k := if exclude_self then k + 1 else k
      let results := search normalize vectors id_mapping vec search_k min_similarity
      if exclude_self then
        Except.ok (reRank ((results.filter (fun r => r.product_id ≠ product_id)).take k))
      else Except.ok results

/-- Catalog rows `(product id, embedding)` in the database's `ORDER BY id`
order; one consistent catalog backs both the filter queries and the FAISS
index built from it (ids are unique, so positions are assigned in id
order in every index built from a catalog or a filtered sub-catalog). -/
abbrev Catalog := List (ℕ × Vec)

/-- Output of `FilteredSimilaritySearch.search_with_filters` (the fields
the claims concern), instrumented with the number of k-NN queries run
against any FAISS index. -/
structure FilteredSearchOut where
  results : List SearchResult
  k : ℕ
  total_found : ℕ
  knn_queries : ℕ
  deriving Repr, DecidableEq

/-- The result-formatting loop inside
`FilteredSimilaritySearch._search_subset_strategy`: maps each raw
`(distance, position)` pair through the temporary id mapping built from
the filtered pids, converts distances and applies the similarity
threshold, keeping the raw enumeration rank. -/
def subset_format (normalize : Bool) (pids : List ℕ) (min_similarity : Option ℚ)
    (pairs : List (ℚ × ℕ)) : List SearchResult :=
  pairs.enum.filterMap (fun rp =>
    match dictGet pids.enum rp.2.2 with
    | none => none
    | some product_id =>
      let similarity := distance_to_similarity normalize rp.2.1
      if below_min_similarity min_similarity similarity then none
      else some (SearchResult.mk product_id rp.2.1 similarity rp.1))

/-- `FilteredSimilaritySearch._search_subset_strategy`: fetches the
filtered embeddings (same predicate and id order as the id query), builds
a throwaway flat index over them, normalizes the query when configured
(guard `norm > 1e-8`, stated on the squared norm), searches with
`min(k, ntotal)` and formats inline keeping raw ranks; with `search_k ≤
ntotal` no `-1` index occurs, and the temporary id mapping is total on
positions. -/
def search_subset_strategy (normalize : Bool) (cat : Catalog) (query : Vec)
    (pred : ℕ → Bool) (k : ℕ) (min_similarity : Option ℚ) : FilteredSearchOut :=
  let fcat := cat.filter (fun it => pred it.1)
  if fcat.length = 0 then
    FilteredSearchOut.mk [] k 0 0
  else
    let embeddings := fcat.map Prod.snd
    let id_mapping := (fcat.map Prod.fst).enum
    let q := if normalize then
        (if 1/10^16 < normSq query then divByNorm query else query)
      else query
    let search_k := min k embeddings.length
    let pairs := index_search embeddings q search_k
    let results := subset_format normalize (fcat.map Prod.fst) min_similarity pairs
    FilteredSearchOut.mk results k results.length 1

/-- `FilteredSimilaritySearch._search_postfilter_strategy`: searches the
full index with the oversampled `min(5k, ntotal)`, keeps only results in
the allowed id set, truncates to `k` and re-ranks 0-based. -/
def search_postfilter_strategy (normalize : Bool) (cat : Catalog) (query : Vec)
    (pred : ℕ → Bool) (k : ℕ) (min_similarity : Option ℚ) : FilteredSearchOut :=
  let vectors := cat.map Prod.snd
  let id_mapping := (cat.map Prod.fst).enum
  let search_k := min (k * 5) vectors.length
  let res := search normalize vectors id_mapping query search_k min_similarity
  let filtered_results := (res.filter (fun r => pred r.product_id)).take k
  FilteredSearchOut.mk (reRank filtered_results) k filtered_results.length 1

/-- `FilteredSimilaritySearch.search_with_filters`: computes the filtered
candidate ids, returns an empty result set immediately (without any k-NN
query) when none remain, otherwise chooses the strategy — auto via the
10% ratio threshold, or forced by the caller — and dispatches. -/
def search_with_filters (normalize : Bool) (cat : Catalog) (query : Vec)
    (pred : ℕ → Bool) (k : ℕ) (min_similarity : Option ℚ)
    (strategy : Option String) : FilteredSearchOut :=
  let filtered_product_ids := (cat.filter (fun it => pred it.1)).map Prod.fst
  if filtered_product_ids.length = 0 then
    FilteredSearchOut.mk [] k 0 0
  else
    let total_products := cat.length
    let filter_ratio := (filtered_product_ids.length : ℚ) / (total_products : ℚ)
    let use_subset :=
      if strategy = some "subset" then true
      else if strategy = some "postfilter" then false
      else decide (filter_ratio < 1/10)
    if use_subset then search_subset_strategy normalize cat query pred k min_similarity
    else search_postfilter_strategy normalize cat query pred k min_similarity

/-! ### Theorems -/

theorem reRank_map_rank (l : List SearchResult) :
    (reRank l).map SearchResult.rank = List.range l.length := by
  have hcomp : (SearchResult.rank ∘ fun ir : ℕ × SearchResult =>
      SearchResult.mk ir.2.product_id ir.2.distance ir.2.similarity ir.1) = Prod.fst := rfl
  rw [reRank, List.map_map, hcomp, List.enum_map_fst]

theorem reRank_length (l : List SearchResult) : (reRank l).length = l.length := by
  rw [reRank, List.length_map, List.enum_length]

theorem mem_of_dictGet {α β : Type} [DecidableEq α] (ps : List (α × β)) (k : α) (v : β)
    (h : dictGet ps k = some v) : (k, v) ∈ ps := by
  induction ps with
  | nil => simp [dictGet] at h
  | cons p tail ih =>
    simp only [dictGet] at h
    cases htl : dictGet tail k with
    | some w =>
      rw [htl] at h
      simp only [Option.some.injEq] at h
      subst h
      exact List.mem_cons_of_mem _ (ih htl)
    | none =>
      rw [htl] at h
      by_cases hk : p.1 = k
      · rw [if_pos hk] at h
        simp only [Option.some.injEq] at h
        have : p = (k, v) := by
          cases p
          simp only [Prod.mk.injEq]
          exact ⟨hk, h⟩
        rw [← this]
        exact List.mem_cons_self _ _
      · rw [if_neg hk] at h
        exact absurd h (by simp)

theorem dictGet_of_mem_nodup {α β : Type} [DecidableEq α] (ps : List (α × β))
    (hnd : (ps.map Prod.fst).Nodup) (k : α) (v : β) (hm : (k, v) ∈ ps) :
    dictGet ps k = some v := by
  induction ps with
  | nil => simp at hm
  | cons p tail ih =>
    simp only [List.map_cons, List.nodup_cons] at hnd
    obtain ⟨hhead, htail⟩ := hnd
    rcases List.mem_cons.mp hm with hm | hm
    · have hk : p.1 = k := by rw [← hm]
      have hv : p.2 = v := by rw [← hm]
      have hnone : dictGet tail k = none := by
        cases hget : dictGet tail k with
        | none => rfl
        | some w =>
          exfalso
          apply hhead
          have := mem_of_dictGet tail k w hget
          rw [hk]
          exact List.mem_map.mpr ⟨(k, w), this, rfl⟩
      simp only [dictGet, hnone, if_pos hk, hv]
    · have := ih htail hm
      simp only [dictGet, this]

theorem dictGet_swap_of_dictGet {α β : Type} [DecidableEq α] [DecidableEq β]
    (ps : List (α × β)) (hv : (ps.map Prod.snd).Nodup) (k : α) (v : β)
    (h : dictGet ps k = some v) :
    dictGet (ps.map (fun pr => (pr.2, pr.1))) v = some k := by
  apply dictGet_of_mem_nodup
  · rw [List.map_map]
    exact hv
  · exact List.mem_map.mpr ⟨(k, v), mem_of_dictGet _ _ _ h, rfl⟩

theorem dictGet_of_dictGet_swap {α β : Type} [DecidableEq α] [DecidableEq β]
    (ps : List (α × β)) (hk : (ps.map Prod.fst).Nodup) (v : β) (k : α)
    (h : dictGet (ps.map (fun pr => (pr.2, pr.1))) v = some k) :
    dictGet ps k = some v := by
  have hm := mem_of_dictGet _ _ _ h
  obtain ⟨pr, hpr, heq⟩ := List.mem_map.mp hm
  have hpr2 : pr = (k, v) := by
    cases pr
    simp only [Prod.mk.injEq] at heq
    simp only [Prod.mk.injEq]
    exact ⟨heq.2, heq.1⟩
  rw [hpr2] at hpr
  exact dictGet_of_mem_nodup ps hk k v hpr

theorem dictSize_enum (l : List ℕ) : dictSize l.enum = l.length := by
  simp only [dictSize, List.enum_map_fst]
  rw [List.dedup_eq_self.mpr (List.nodup_range _)]
  exact List.length_range _

theorem mappingInv_mk (vecs : List Vec) (mapping : List (ℕ × ℕ))
    (lr : Option ℕ) (hk : (mapping.map Prod.fst).Nodup)
    (hv : (mapping.map Prod.snd).Nodup) (hlen : vecs.length = dictSize mapping) :
    MappingInv { index := some vecs, id_mapping := mapping, reverse_mapping := mapping.map (fun pr => (pr.2, pr.1)), last_rebuild := lr } := by
  refine ⟨?_, ?_, ?_⟩
  · intro i p h
    exact dictGet_swap_of_dictGet mapping hv i p h
  · intro p i h
    exact dictGet_of_dictGet_swap mapping hk p i h
  · intro v hvv
    simp only [Option.some.injEq] at hvv
    rw [← hvv]
    exact hlen

theorem build_index_ok (dimension : ℕ) (embeddings : List Vec)
    (product_ids : List ℕ) (vecs : List Vec) (mapping : List (ℕ × ℕ))
    (h : build_index dimension embeddings product_ids = Except.ok (vecs, mapping)) :
    vecs = embeddings ∧ mapping = product_ids.enum ∧
    embeddings.length = product_ids.length := by
  simp only [build_index] at h
  split_ifs at h with h1 h2 h3
  all_goals first
    | exact Except.noConfusion h
    | (simp only [Except.ok.injEq, Prod.mk.injEq] at h
       exact ⟨h.1.symm, h.2.symm, not_ne_iff.mp h3⟩)

/-- C2: a rebuild triggered when the embedding source yields zero
embeddings fails with the `No product embeddings found` error, and the
manager keeps its previous state: index, mappings and `last_rebuild` (and
hence everything `get_stats` reports) are unchanged. -/
theorem C2_rebuild_zero_embeddings_state_unchanged
    (dimension : ℕ) (st : ManagerState) (now : ℕ) :
    build_index_from_db dimension st [] now =
      Except.error "No product embeddings found in database" ∧
    (runBuild dimension st [] now).1 = st ∧
    get_stats (runBuild dimension st [] now).1 = get_stats st := by
  have h : build_index_from_db dimension st [] now =
      Except.error "No product embeddings found in database" := by
    simp [build_index_from_db, load_embeddings_from_db]
  refine ⟨h, ?_, ?_⟩ <;> simp [runBuild, h]

/-- C6: after every successful `build_index_from_db` (given the schema's
uniqueness of product ids in the queried rows) and after every successful
`load_index_from_disk` of a consistently saved snapshot, `id_mapping` and
`reverse_mapping` are exact inverses and the vector count equals the
mapping size; `reset` also preserves the invariant (the remaining manager
operations do not modify the state). -/
theorem C6_mapping_invariant :
    (∀ (dimension : ℕ) (st : ManagerState) (rows : List Row) (now : ℕ)
      (st2 : ManagerState), (rows.map Row.product_id).Nodup →
      build_index_from_db dimension st rows now = Except.ok st2 → MappingInv st2) ∧
    (∀ (st : ManagerState) (stored_vecs : List Vec)
      (stored_mapping : List (ℕ × ℕ)) (created_at : Option ℕ) (now : ℕ),
      (stored_mapping.map Prod.fst).Nodup → (stored_mapping.map Prod.snd).Nodup →
      stored_vecs.length = dictSize stored_mapping →
      MappingInv (load_index_from_disk st stored_vecs stored_mapping created_at now)) ∧
    (∀ st : ManagerState, MappingInv (reset st)) := by
  refine ⟨?_, ?_, ?_⟩
  · intro dimension st rows now st2 hnd hok
    cases hload : load_embeddings_from_db rows with
    | error e =>
      simp [build_index_from_db, hload] at hok
    | ok pr =>
      obtain ⟨embeddings, product_ids⟩ := pr
      have hpid : product_ids = rows.map Row.product_id := by
        simp only [load_embeddings_from_db] at hload
        by_cases hr : rows.length = 0
        · rw [if_pos hr] at hload
          exact absurd hload (by simp)
        · rw [if_neg hr] at hload
          simp only [Except.ok.injEq, Prod.mk.injEq] at hload
          exact hload.2.symm
      cases hb : build_index dimension embeddings product_ids with
      | error e =>
        simp [build_index_from_db, hload, hb] at hok
      | ok pr2 =>
        obtain ⟨vecs, mapping⟩ := pr2
        simp only [build_index_from_db, hload, hb, Except.ok.injEq] at hok
        obtain ⟨hveq, hmeq, hlen⟩ := build_index_ok _ _ _ _ _ hb
        subst hok
        subst hveq
        subst hmeq
        subst hpid
        exact mappingInv_mk vecs ((rows.map Row.product_id).enum) (some now)
          (by rw [List.enum_map_fst]; exact List.nodup_range _)
          (by rw [List.enum_map_snd]; exact hnd)
          (by rw [dictSize_enum]; exact hlen)
  · intro st stored_vecs stored_mapping created_at now hk hv hlen
    exact mappingInv_mk _ _ _ hk hv hlen
  · intro st
    refine ⟨?_, ?_, ?_⟩
    · intro i p h
      simp [reset, dictGet] at h
    · intro p i h
      simp [reset, dictGet] at h
    · intro vecs h
      simp [reset] at h

/-- Witness for C6: a concrete successful build, a concrete load and a
reset all yield states satisfying the invariant. -/
theorem C6_mapping_invariant_witness :
    MappingInv { index := some [[1, 0], [0, 1]], id_mapping := [(0, 5), (1, 9)], reverse_mapping := [(5, 0), (9, 1)], last_rebuild := some 0 } ∧
    MappingInv (load_index_from_disk
      { index := none, id_mapping := [], reverse_mapping := [], last_rebuild := none }
      [[1, 0]] [(0, 7)] none 3) ∧
    MappingInv (reset
      { index := none, id_mapping := [], reverse_mapping := [], last_rebuild := none }) :=
  ⟨C6_mapping_invariant.1 2
      { index := none, id_mapping := [], reverse_mapping := [], last_rebuild := none }
      [{ product_id := 5, embedding := [1, 0] }, { product_id := 9, embedding := [0, 1] }]
      0
      { index := some [[1, 0], [0, 1]], id_mapping := [(0, 5), (1, 9)], reverse_mapping := [(5, 0), (9, 1)], last_rebuild := some 0 }
      (by decide)
      (by norm_num [build_index_from_db, load_embeddings_from_db, build_index, List.enum,
        List.enumFrom]),
   C6_mapping_invariant.2.1
      { index := none, id_mapping := [], reverse_mapping := [], last_rebuild := none }
      [[1, 0]] [(0, 7)] none 3 (by decide) (by decide) (by decide),
   C6_mapping_invariant.2.2
      { index := none, id_mapping := [], reverse_mapping := [], last_rebuild := none }⟩

theorem normSq_nonneg (v : Vec) : 0 ≤ normSq v := by
  induction v with
  | nil => simp [normSq]
  | cons x xs ih => simp only [normSq]; nlinarith [mul_self_nonneg x]

theorem dot_sq_le_normSq_mul (a b : Vec) :
    dot a b * dot a b ≤ normSq a * normSq b := by
  induction a generalizing b with
  | nil => simp [dot, normSq]
  | cons x xs ih =>
    cases b with
    | nil =>
      simp [dot, normSq]
    | cons y ys =>
      simp only [dot, normSq]
      have hA := normSq_nonneg xs
      have hB := normSq_nonneg ys
      have hIH := ih ys
      rcases eq_or_lt_of_le hB with hB0 | hBpos
      · have hS2 : dot xs ys * dot xs ys = 0 := by
          have h1 : dot xs ys * dot xs ys ≤ 0 := by rw [← hB0] at hIH; linarith
          have h2 : 0 ≤ dot xs ys * dot xs ys := mul_self_nonneg _
          linarith
        have hS : dot xs ys = 0 := by
          exact mul_self_eq_zero.mp hS2
        rw [hS, ← hB0]
        nlinarith [mul_nonneg hA (mul_self_nonneg y)]
      · nlinarith [sq_nonneg (x * normSq ys - y * dot xs ys),
          mul_nonneg (add_nonneg (mul_self_nonneg y) hB)
            (sub_nonneg.mpr hIH)]

theorem dot_bounds (a b : Vec) (ha : normSq a = 1) (hb : normSq b = 1) :
    -1 ≤ dot a b ∧ dot a b ≤ 1 := by
  have h := dot_sq_le_normSq_mul a b
  rw [ha, hb] at h
  constructor
  · nlinarith [sq_nonneg (dot a b + 1)]
  · nlinarith [sq_nonneg (dot a b - 1)]

theorem distSq_eq_normSq (a b : Vec) (h : a.length = b.length) :
    distSq a b = normSq a + normSq b - 2 * dot a b := by
  induction a generalizing b with
  | nil =>
    cases b with
    | nil => simp [distSq, normSq, dot]
    | cons y ys => simp at h
  | cons x xs ih =>
    cases b with
    | nil => simp at h
    | cons y ys =>
      simp only [List.length_cons, Nat.succ_inj] at h
      simp only [distSq, normSq, dot, ih ys h]
      ring

/-- C3: for unit vectors `a`, `b` and `d` the true L2 distance between them
(`d * d = distSq a b`), the conversion in `SimilaritySearch._distance_to_similarity`
returns exactly the direct cosine similarity `dot a b` mapped to [0, 1]; and
for every input distance the conversion's output lies in [0, 1]. -/
theorem C3_distance_to_similarity_correct (a b : Vec) (d : ℚ)
    (hlen : a.length = b.length) (ha : normSq a = 1) (hb : normSq b = 1)
    (hd : d * d = distSq a b) :
    distance_to_similarity true d = (dot a b + 1) / 2 ∧
    (∀ e : ℚ, 0 ≤ distance_to_similarity true e ∧ distance_to_similarity true e ≤ 1) := by
  constructor
  · have hds := distSq_eq_normSq a b hlen
    rw [ha, hb] at hds
    have hcos : 1 - d ^ 2 / 2 = dot a b := by
      rw [sq, hd, hds]; ring
    obtain ⟨hlo, hhi⟩ := dot_bounds a b ha hb
    simp only [distance_to_similarity, Bool.true_eq_false, if_false, hcos]
    rw [min_eq_right hhi, max_eq_right hlo]
  · intro e
    simp only [distance_to_similarity, Bool.true_eq_false, if_false]
    constructor
    · have : (-1 : ℚ) ≤ max (-1) (min 1 (1 - e ^ 2 / 2)) := le_max_left _ _
      linarith
    · have h1 : min 1 (1 - e ^ 2 / 2) ≤ 1 := min_le_left _ _
      have : max (-1) (min 1 (1 - e ^ 2 / 2)) ≤ 1 := max_le (by norm_num) h1
      linarith

/-- Witness for C3 at `a = [1]`, `b = [-1]`, `d = 2`. -/
theorem C3_witness :
    distance_to_similarity true 2 = (dot [1] [-1] + 1) / 2 ∧
    (∀ e : ℚ, 0 ≤ distance_to_similarity true e ∧ distance_to_similarity true e ≤ 1) :=
  C3_distance_to_similarity_correct [1] [-1] 2 rfl
    (by norm_num [normSq]) (by norm_num [normSq]) (by norm_num [distSq])

/-- C4: the claim states that a warm EWMA update with interaction weight 0
returns the user embedding unchanged and does not fail.  In the code,
`adjusted_alpha = self.alpha / (1.0 + 0 - 1.0)` divides by zero, so every
zero-weight update raises `ZeroDivisionError` instead. -/
theorem C4_zero_weight_update_raises (alpha : ℚ) (normalize : Bool)
    (current_embedding interaction_embedding : Vec) :
    update_embedding alpha normalize current_embedding interaction_embedding 0 =
      Except.error "ZeroDivisionError" := by
  simp [update_embedding]

/-- C7: when exactly one of the long-term and session embeddings is present,
`UserEmbeddingBlender.blend` returns that embedding unchanged with blend
type `long_term_only` / `session_only`, for every alpha and context; when
neither is present it returns a failure result (`success = false`,
no vector, `error = "no_embeddings"`). -/
theorem C7_blend_single_side_exact (normalize : Bool) (long_term_alpha : ℚ)
    (v : Vec) (alphaArg : Option ℚ) (context : Option String) :
    ((blend normalize long_term_alpha (some v) none alphaArg context).blended_embedding
        = some v ∧
      (blend normalize long_term_alpha (some v) none alphaArg context).blend_type
        = "long_term_only" ∧
      (blend normalize long_term_alpha (some v) none alphaArg context).success = true) ∧
    ((blend normalize long_term_alpha none (some v) alphaArg context).blended_embedding
        = some v ∧
      (blend normalize long_term_alpha none (some v) alphaArg context).blend_type
        = "session_only" ∧
      (blend normalize long_term_alpha none (some v) alphaArg context).success = true) ∧
    ((blend normalize long_term_alpha none none alphaArg context).blended_embedding
        = none ∧
      (blend normalize long_term_alpha none none alphaArg context).success = false ∧
      (blend normalize long_term_alpha none none alphaArg context).error
        = some "no_embeddings") := by
  refine ⟨⟨?_, ?_, ?_⟩, ⟨?_, ?_, ?_⟩, ⟨?_, ?_, ?_⟩⟩ <;> simp [blend]

/-- C5 counterexample: with a single valid selection (below the minimum of
3), `ColdStartEmbedding.from_style_quiz` proceeds with the mean of the
available selections — `success = true` and the selection itself comes back
as the user embedding — rather than falling back to a zero-confidence
random default. -/
theorem C5_counterexample :
    (from_style_quiz true 3 ["p1"] [("p1", [1, 0])]).valid_selections = 1 ∧
    (from_style_quiz true 3 ["p1"] [("p1", [1, 0])]).success = true ∧
    (from_style_quiz true 3 ["p1"] [("p1", [1, 0])]).user_embedding = some [1, 0] := by
  have hsel : (["p1"] : List String).filterMap
      (fun pid => dictGet [("p1", ([1, 0] : Vec))] pid) = [[1, 0]] := by
    simp [dictGet]
  refine ⟨?_, ?_, ?_⟩ <;>
    norm_num [from_style_quiz, hsel, from_product_selections, vecMean, vecSum,
      divByNorm, ratSqrt, normSq, Nat.sqrt]

/-- C5 amended: for fewer than the minimum valid selections,
`from_style_quiz` never raises: with zero valid selections it reports
`success = false` with error `no_valid_selections` and produces no
embedding (and no fallback vector); with at least one valid selection it
proceeds, returning the (normalized) mean of the valid selections. -/
theorem C5_no_throw_below_minimum (normalize : Bool) (min_quiz_selections : ℕ)
    (ids : List String) (dict : List (String × Vec)) :
    ((from_style_quiz normalize min_quiz_selections ids dict).valid_selections = 0 →
      (from_style_quiz normalize min_quiz_selections ids dict).success = false ∧
      (from_style_quiz normalize min_quiz_selections ids dict).user_embedding = none ∧
      (from_style_quiz normalize min_quiz_selections ids dict).error
        = some "no_valid_selections") ∧
    ((from_style_quiz normalize min_quiz_selections ids dict).valid_selections ≠ 0 →
      (from_style_quiz normalize min_quiz_selections ids dict).success = true ∧
      (from_style_quiz normalize min_quiz_selections ids dict).user_embedding =
        some (if normalize then
            divByNorm (vecMean (ids.filterMap (fun pid => dictGet dict pid)))
          else vecMean (ids.filterMap (fun pid => dictGet dict pid)))) := by
  by_cases hL : ids.filterMap (fun pid => dictGet dict pid) = []
  · constructor
    · intro _
      simp [from_style_quiz, hL]
    · intro hne
      exfalso
      apply hne
      simp [from_style_quiz, hL]
  · constructor
    · intro hz
      exfalso
      apply hL
      simp only [from_style_quiz] at hz
      rw [if_neg hL] at hz
      revert hz
      cases hfp : from_product_selections normalize
          (ids.filterMap (fun pid => dictGet dict pid)) with
      | ok v => intro hz; exact List.length_eq_zero.mp hz
      | error e => intro hz; exact List.length_eq_zero.mp hz
    · intro _
      have hfp : from_product_selections normalize
          (ids.filterMap (fun pid => dictGet dict pid)) =
          Except.ok (if normalize then
              divByNorm (vecMean (ids.filterMap (fun pid => dictGet dict pid)))
            else vecMean (ids.filterMap (fun pid => dictGet dict pid))) := by
        simp [from_product_selections, hL]
      simp [from_style_quiz, hL, hfp]

/-- Witness for C5's amended theorem: an empty quiz gives the failure
result, and a single-selection quiz proceeds. -/
theorem C5_no_throw_below_minimum_witness :
    ((from_style_quiz true 3 ["q"] []).success = false ∧
      (from_style_quiz true 3 ["q"] []).user_embedding = none ∧
      (from_style_quiz true 3 ["q"] []).error = some "no_valid_selections") ∧
    ((from_style_quiz true 3 ["p2"] [("p2", [2, 0])]).success = true ∧
      (from_style_quiz true 3 ["p2"] [("p2", [2, 0])]).user_embedding =
        some (if true then
            divByNorm (vecMean ((["p2"] : List String).filterMap
              (fun pid => dictGet [("p2", ([2, 0] : Vec))] pid)))
          else vecMean ((["p2"] : List String).filterMap
            (fun pid => dictGet [("p2", ([2, 0] : Vec))] pid)))) :=
  ⟨(C5_no_throw_below_minimum true 3 ["q"] []).1 (by decide),
   (C5_no_throw_below_minimum true 3 ["p2"] [("p2", [2, 0])]).2 (by decide)⟩

/-- C8 counterexample: a product with one view whose last interaction was
210 days ago (half-life 30) gets recency `max(0.01, 0.5^7) = 0.01`, so the
popularity score is `0.01` and not the claimed pure exponential
`1 * 0.5^(210/30) = 1/128`. -/
theorem C8_counterexample :
    score_product {} { views := 1, days_since_last_interaction := some 210 }
        = some (1/100) ∧
    (1 : ℚ) * (1/2 : ℚ) ^ ((210 : ℕ) / 30) ≠ 1/100 := by
  constructor
  · norm_num [score_product, calculate_recency_score, max_def]
  · norm_num

theorem score_product_nonneg (hl : ℕ) (s : ProductStats) (r : ℚ)
    (h : score_product { popularity_half_life_days := hl } s = some r) : 0 ≤ r := by
  cases hd : s.days_since_last_interaction with
  | none =>
    simp only [score_product, hd, Option.some.injEq] at h
    rw [← h]
    positivity
  | some d =>
    cases hcr : calculate_recency_score hl d with
    | none => simp [score_product, hd, hcr] at h
    | some rec =>
      simp only [score_product, hd, hcr, Option.some.injEq] at h
      have hrec : (0 : ℚ) ≤ rec := by
        simp only [calculate_recency_score] at hcr
        by_cases hc : hl ≠ 0 ∧ d % hl = 0
        · rw [if_pos hc] at hcr
          simp only [Option.some.injEq] at hcr
          rw [← hcr]
          exact le_trans (by norm_num) (le_max_left _ _)
        · rw [if_neg hc] at hcr
          exact absurd hcr (by simp)
      rw [← h]
      exact mul_nonneg (by positivity) hrec

theorem score_batch_raw_nonneg (hl : ℕ) (batch : List (ℕ × ProductStats))
    (scores : List (ℕ × ℚ))
    (h : score_batch_raw { popularity_half_life_days := hl } batch = some scores) :
    ∀ pr ∈ scores, 0 ≤ pr.2 := by
  induction batch generalizing scores with
  | nil =>
    simp only [score_batch_raw, Option.some.injEq] at h
    subst h
    intro pr hpr
    simp at hpr
  | cons hd tl ih =>
    obtain ⟨pid, s⟩ := hd
    simp only [score_batch_raw] at h
    cases hsp : score_product { popularity_half_life_days := hl } s with
    | none => rw [hsp] at h; simp at h
    | some sc =>
      rw [hsp] at h
      cases hrest : score_batch_raw { popularity_half_life_days := hl } tl with
      | none => rw [hrest] at h; simp at h
      | some rs =>
        rw [hrest] at h
        simp only [Option.some.injEq] at h
        subst h
        intro pr hpr
        rcases List.mem_cons.mp hpr with hpr | hpr
        · subst hpr
          exact score_product_nonneg hl s sc hsp
        · exact ih rs hrest pr hpr

theorem le_maxQ (l : List ℚ) (x : ℚ) (hx : x ∈ l) : x ≤ maxQ l := by
  induction l with
  | nil => simp at hx
  | cons a as ih =>
    cases as with
    | nil =>
      simp at hx
      simp [maxQ, hx]
    | cons b bs =>
      rcases List.mem_cons.mp hx with h | h
      · subst h
        simp [maxQ]
      · have := ih h
        simp only [maxQ]
        exact le_trans this (le_max_right _ _)

/-- C8 amended: with the shipped weights (purchase 5 > cart 3 > like 2 >
view 1), a product with a last interaction scores its weighted engagement
sum times the floored decay `max(0.01, 0.5^(days/half_life))` (stated for
exactly representable exponents), and batch scores are normalized into
[0, 1] by dividing by the maximum raw score when that maximum is
positive. -/
theorem C8_popularity_score_formula :
    (∀ (v l c p d hl : ℕ), hl ≠ 0 → hl ∣ d →
      score_product { popularity_half_life_days := hl }
          { views := v, likes := l, carts := c, purchases := p,
            days_since_last_interaction := some d } =
        some (((v : ℚ) * 1 + (l : ℚ) * 2 + (c : ℚ) * 3 + (p : ℚ) * 5) *
          max (1/100) ((1/2 : ℚ) ^ (d / hl)))) ∧
    (({} : RankingConfigM).view_weight < ({} : RankingConfigM).like_weight ∧
      ({} : RankingConfigM).like_weight < ({} : RankingConfigM).cart_weight ∧
      ({} : RankingConfigM).cart_weight < ({} : RankingConfigM).purchase_weight) ∧
    (∀ (hl : ℕ) (batch : List (ℕ × ProductStats)) (out : List (ℕ × ℚ)),
      score_batch { popularity_half_life_days := hl } batch = some out →
      ∀ pr ∈ out, 0 ≤ pr.2 ∧ pr.2 ≤ 1) := by
  refine ⟨?_, ⟨by norm_num [RankingConfigM.view_weight], by
    norm_num [RankingConfigM.like_weight], by norm_num [RankingConfigM.cart_weight]⟩, ?_⟩
  · intro v l c p d hl hhl hdvd
    have hmod : d % hl = 0 := Nat.dvd_iff_mod_eq_zero.mp hdvd
    simp [score_product, calculate_recency_score, hhl, hmod]
  · intro hl batch out h
    cases hraw : score_batch_raw { popularity_half_life_days := hl } batch with
    | none => simp [score_batch, hraw] at h
    | some scores =>
      simp only [score_batch, hraw, Option.some.injEq] at h
      have hnn := score_batch_raw_nonneg hl batch scores hraw
      by_cases hempty : scores = []
      · rw [if_pos hempty] at h
        simp only [Option.some.injEq] at h
        subst h
        intro pr hpr
        rw [hempty] at hpr
        simp at hpr
      · rw [if_neg hempty] at h
        by_cases hpos : 0 < maxQ (scores.map Prod.snd)
        · rw [if_pos hpos] at h
          simp only [Option.some.injEq] at h
          subst h
          intro pr hpr
          obtain ⟨q, hq, hq2⟩ := List.mem_map.mp hpr
          have hqle : q.2 ≤ maxQ (scores.map Prod.snd) :=
            le_maxQ _ _ (List.mem_map.mpr ⟨q, hq, rfl⟩)
          have hq0 : 0 ≤ q.2 := hnn q hq
          rw [← hq2]
          constructor
          · exact div_nonneg hq0 (le_of_lt hpos)
          · exact (div_le_one hpos).mpr hqle
        · rw [if_neg hpos] at h
          simp only [Option.some.injEq] at h
          subst h
          intro pr hpr
          have h0 : 0 ≤ pr.2 := hnn pr hpr
          have hle : pr.2 ≤ maxQ (scores.map Prod.snd) :=
            le_maxQ _ _ (List.mem_map.mpr ⟨pr, hpr, rfl⟩)
          constructor
          · exact h0
          · push_neg at hpos
            linarith

/-- Witness for C8's amended theorem at a concrete product and batch. -/
theorem C8_popularity_score_formula_witness :
    (score_product { popularity_half_life_days := 30 }
        { views := 1, likes := 0, carts := 0, purchases := 0,
          days_since_last_interaction := some 60 } =
      some (((1 : ℚ) * 1 + (0 : ℚ) * 2 + (0 : ℚ) * 3 + (0 : ℚ) * 5) *
        max (1/100) ((1/2 : ℚ) ^ ((60 : ℕ) / 30)))) ∧
    (∀ pr ∈ ([((7 : ℕ), (1 : ℚ))] : List (ℕ × ℚ)), 0 ≤ pr.2 ∧ pr.2 ≤ 1) :=
  ⟨C8_popularity_score_formula.1 1 0 0 0 60 30 (by decide) (by decide),
   C8_popularity_score_formula.2.2 30 [(7, { views := 1 })] [(7, 1)]
     (by norm_num [score_batch, score_batch_raw, score_product, maxQ])⟩

/-- C10: every result of `_format_results` keeps as its `rank` the raw
position of the candidate in the k-NN output arrays (threshold and mapping
drops do not reassign ranks, so rank lists can be non-contiguous — shown
at a concrete input where a middle candidate falls below the threshold),
while `search_by_product_id` with `exclude_self` reassigns contiguous
0-based ranks. -/
theorem C10_rank_semantics :
    (∀ (normalize : Bool) (ds : List ℚ) (idxs : List ℤ) (idMap : List (ℕ × ℕ))
      (minSim : Option ℚ) (r : SearchResult),
      r ∈ format_results normalize ds idxs idMap minSim →
      ∃ d i, (ds.zip idxs)[r.rank]? = some (d, i) ∧ i ≠ -1 ∧
        dictGet idMap i.toNat = some r.product_id ∧ r.distance = d ∧
        r.similarity = distance_to_similarity normalize d) ∧
    ((format_results true [0, 2, 0] [0, 1, 2] [(0, 10), (1, 11), (2, 12)]
        (some (9/10))).map SearchResult.rank = [0, 2]) ∧
    (∀ (normalize : Bool) (vectors : List Vec) (idMap revMap : List (ℕ × ℕ))
      (pid k : ℕ) (minSim : Option ℚ) (rs : List SearchResult),
      search_by_product_id normalize vectors idMap revMap pid k true minSim
        = Except.ok rs →
      rs.map SearchResult.rank = List.range rs.length) := by
  refine ⟨?_, ?_, ?_⟩
  · intro normalize ds idxs idMap minSim r hr
    simp only [format_results] at hr
    obtain ⟨a, ha, hf⟩ := List.mem_filterMap.mp hr
    obtain ⟨n, d, i⟩ := a
    have hget : (ds.zip idxs)[n]? = some (d, i) :=
      List.mk_mem_enum_iff_getElem?.mp ha
    dsimp only at hf
    by_cases hi : i = -1
    · rw [if_pos hi] at hf
      exact absurd hf (by simp)
    · rw [if_neg hi] at hf
      cases hmap : dictGet idMap i.toNat with
      | none =>
        simp only [hmap] at hf
        exact Option.noConfusion hf
      | some pid =>
        simp only [hmap] at hf
        by_cases hbelow : below_min_similarity minSim
            (distance_to_similarity normalize d) = true
        · rw [if_pos hbelow] at hf
          exact absurd hf (by simp)
        · rw [if_neg hbelow] at hf
          simp only [Option.some.injEq] at hf
          rw [← hf]
          exact ⟨d, i, hget, hi, hmap, rfl, rfl⟩

  · norm_num [format_results, dictGet, below_min_similarity, distance_to_similarity,
      List.filterMap, List.enum, List.enumFrom, max_def, min_def]
    decide
  · intro normalize vectors idMap revMap pid k minSim rs h
    cases hrev : dictGet revMap pid with
    | none => simp [search_by_product_id, hrev] at h
    | some faiss_idx =>
      cases hvec : vectors[faiss_idx]? with
      | none => simp [search_by_product_id, hrev, hvec] at h
      | some vec =>
        simp only [search_by_product_id, hrev, hvec, if_pos, Except.ok.injEq] at h
        rw [← h, reRank_map_rank, reRank_length]

/-- Witness for C10 at concrete inputs: a surviving result of
`_format_results` carries its raw-candidate data at its rank, and a
concrete `search_by_product_id` call with `exclude_self` yields contiguous
ranks. -/
theorem C10_rank_semantics_witness :
    (∃ d i, ((([0] : List ℚ).zip ([0] : List ℤ))[(SearchResult.mk 10 0 1 0).rank]?
        = some (d, i) ∧ i ≠ -1 ∧
        dictGet [(0, 10)] i.toNat = some (SearchResult.mk 10 0 1 0).product_id ∧
        (SearchResult.mk 10 0 1 0).distance = d ∧
        (SearchResult.mk 10 0 1 0).similarity = distance_to_similarity true d)) ∧
    (([] : List SearchResult).map SearchResult.rank =
      List.range ([] : List SearchResult).length) :=
  ⟨C10_rank_semantics.1 true [0] [0] [(0, 10)] none (SearchResult.mk 10 0 1 0)
      (by norm_num [format_results, dictGet, below_min_similarity,
        distance_to_similarity, List.filterMap, List.enum, List.enumFrom]),
   C10_rank_semantics.2.2 true [[1]] [(0, 3)] [(3, 0)] 3 1 none []
      (by norm_num [search_by_product_id, dictGet, search, normalize_vector, normSq,
        index_search, List.insertionSort, List.orderedInsert, distSq, List.enum,
        List.enumFrom, format_results, below_min_similarity, distance_to_similarity,
        divByNorm, ratSqrt, Nat.sqrt, reRank])⟩

/-- C9: when the filters exclude every product, `search_with_filters`
immediately returns an empty result set with `total_found = 0`, runs no
k-NN query against any index, and raises no error — for every query, `k`,
threshold and strategy choice. -/
theorem C9_empty_filter_short_circuit (normalize : Bool) (cat : Catalog)
    (query : Vec) (pred : ℕ → Bool) (k : ℕ) (min_similarity : Option ℚ)
    (strategy : Option String)
    (hempty : (cat.filter (fun it => pred it.1)).map Prod.fst = []) :
    search_with_filters normalize cat query pred k min_similarity strategy =
      FilteredSearchOut.mk [] k 0 0 := by
  simp [search_with_filters, hempty]

/-- Witness for C9: a filter rejecting everything on a one-product catalog. -/
theorem C9_empty_filter_short_circuit_witness :
    search_with_filters true [(1, [1])] [1] (fun _ => false) 5 none none =
      FilteredSearchOut.mk [] 5 0 0 :=
  C9_empty_filter_short_circuit true [(1, [1])] [1] (fun _ => false) 5 none none
    (by simp)

/-- C1 counterexample: with 6 products, `k = 1` and a filter matching only
the product farthest from the query, the forced `subset` strategy returns
that product while the forced `postfilter` strategy — which oversamples
only `5k = 5` of the 6 index entries — returns nothing: the two
strategies' top-k id lists differ. -/
theorem C1_counterexample :
    ((search_with_filters true [(1, [1]), (2, [2]), (3, [3]), (4, [4]), (5, [5]), (6, [100])]
        [1] (fun pid => pid == 6) 1 none (some "subset")).results.map
        SearchResult.product_id = [6]) ∧
    ((search_with_filters true [(1, [1]), (2, [2]), (3, [3]), (4, [4]), (5, [5]), (6, [100])]
        [1] (fun pid => pid == 6) 1 none (some "postfilter")).results.map
        SearchResult.product_id = []) := by
  have hsub : ((some "subset" : Option String) = some "subset") = True := by simp
  have hpost : ((some "postfilter" : Option String) = some "subset") = False := by simp
  have hpost2 : ((some "postfilter" : Option String) = some "postfilter") = True := by
    simp
  constructor
  · norm_num [search_with_filters, hsub, search_subset_strategy, subset_format,
      normalize_vector, index_search, format_results, dictGet, below_min_similarity,
      distance_to_similarity, divByNorm, ratSqrt, normSq, distSq, entryLe,
      List.insertionSort, List.orderedInsert, List.enum, List.enumFrom, reRank,
      Nat.sqrt, max_def, min_def, List.filterMap_cons, List.filterMap_nil]
  · norm_num [search_with_filters, hpost, hpost2, search_postfilter_strategy, search,
      normalize_vector, index_search, format_results, dictGet, below_min_similarity,
      distance_to_similarity, divByNorm, ratSqrt, normSq, distSq, entryLe,
      List.insertionSort, List.orderedInsert, List.enum, List.enumFrom, reRank,
      Nat.sqrt, max_def, min_def, List.filterMap_cons, List.filterMap_nil]

theorem filterMap_eq_map {α β : Type} (f : α → Option β) (g : α → β) (l : List α)
    (h : ∀ a ∈ l, f a = some (g a)) : l.filterMap f = l.map g := by
  induction l with
  | nil => rfl
  | cons a as ih =>
    simp only [List.filterMap_cons, h a (List.mem_cons_self a as), List.map_cons]
    rw [ih (fun x hx => h x (List.mem_cons_of_mem a hx))]

theorem enum_map_snd_comp {α β : Type} (l : List α) (h : α → β) :
    l.enum.map (fun ie => h ie.2) = l.map h := by
  have hc : (fun ie : ℕ × α => h ie.2) = h ∘ Prod.snd := rfl
  rw [hc, ← List.map_map, List.enum_map_snd]

theorem take_min_length {α : Type} (k : ℕ) (l : List α) :
    l.take (min k l.length) = l.take k := by
  rcases le_total k l.length with h | h
  · rw [min_eq_left h]
  · rw [min_eq_right h, List.take_length, List.take_of_length_le h]

theorem dictGet_enum_getD (l : List ℕ) (i : ℕ) (h : i < l.length) :
    dictGet l.enum i = some (l.getD i 0) := by
  apply dictGet_of_mem_nodup
  · rw [List.enum_map_fst]
    exact List.nodup_range _
  · apply List.mk_mem_enum_iff_getElem?.mpr
    rw [List.getElem?_eq_getElem h, List.getD_eq_getElem?_getD,
      List.getElem?_eq_getElem h]
    rfl

theorem index_search_snd_lt (vectors : List Vec) (q : Vec) (sk : ℕ) :
    ∀ e ∈ index_search vectors q sk, e.2 < vectors.length := by
  intro e he
  have h1 := List.mem_of_mem_take he
  have h2 := (List.mem_insertionSort entryLe).mp h1
  obtain ⟨iv, hiv, heq⟩ := List.mem_map.mp h2
  obtain ⟨i, v⟩ := iv
  obtain ⟨hlt, _⟩ := List.getElem?_eq_some.mp (List.mk_mem_enum_iff_getElem?.mp hiv)
  rw [← heq]
  exact hlt

theorem sort_filter_comm (p : ℚ × ℕ → Bool) (l : List (ℚ × ℕ)) :
    (List.insertionSort entryLe l).filter p
      = List.insertionSort entryLe (l.filter p) := by
  apply List.eq_of_perm_of_sorted (r := entryLe)
  · exact ((List.perm_insertionSort entryLe l).filter p).trans
      (List.perm_insertionSort entryLe (l.filter p)).symm
  · exact (List.sorted_insertionSort entryLe l).filter p
  · exact List.sorted_insertionSort entryLe (l.filter p)

theorem subset_prepare_eq (query : Vec) (hq : normSq query ≠ 1/10^16) :
    (if 1/10^16 < normSq query then divByNorm query else query)
      = normalize_vector query := by
  unfold normalize_vector
  rcases lt_trichotomy (normSq query) (1/10^16) with h | h | h
  · rw [if_neg (not_lt.mpr (le_of_lt h)), if_pos h]
  · exact absurd h hq
  · rw [if_pos h, if_neg (not_lt.mpr (le_of_lt h))]

theorem pid_getD_iff (rows : Catalog)
    (hmono : List.Pairwise (· < ·) (rows.map Prod.fst)) (i : ℕ) (hi : i < rows.length)
    (j : ℕ) (hj : j < rows.length) :
    i ≤ j ↔ (rows.map Prod.fst).getD i 0 ≤ (rows.map Prod.fst).getD j 0 := by
  have hlen : (rows.map Prod.fst).length = rows.length := List.length_map _ _
  have hmono2 := List.pairwise_iff_getElem.mp hmono
  have hgi : (rows.map Prod.fst).getD i 0 = (rows.map Prod.fst).get ⟨i, hlen ▸ hi⟩ := by
    rw [List.getD_eq_getElem?_getD, List.getElem?_eq_getElem (hlen ▸ hi)]
    rfl
  have hgj : (rows.map Prod.fst).getD j 0 = (rows.map Prod.fst).get ⟨j, hlen ▸ hj⟩ := by
    rw [List.getD_eq_getElem?_getD, List.getElem?_eq_getElem (hlen ▸ hj)]
    rfl
  rw [hgi, hgj]
  constructor
  · intro hij
    rcases Nat.lt_or_ge i j with hlt | hge
    · exact le_of_lt (hmono2 i j (hlen ▸ hi) (hlen ▸ hj) hlt)
    · have hieq : i = j := le_antisymm hij hge
      subst hieq
      exact le_refl _
  · intro hpij
    by_contra hc
    push_neg at hc
    exact absurd hpij (not_le.mpr (hmono2 j i (hlen ▸ hj) (hlen ▸ hi) hc))

theorem sort_pos_to_pid (q : Vec) (rows : Catalog)
    (hmono : List.Pairwise (· < ·) (rows.map Prod.fst)) :
    (List.insertionSort entryLe
        ((rows.map Prod.snd).enum.map (fun iv => (distSq q iv.2, iv.1)))).map
        (fun e => (e.1, (rows.map Prod.fst).getD e.2 0))
      = List.insertionSort entryLe (rows.map (fun it => (distSq q it.2, it.1))) := by
  have hvalid : ∀ e ∈ (rows.map Prod.snd).enum.map (fun iv => (distSq q iv.2, iv.1)),
      e.2 < rows.length := by
    intro e he
    obtain ⟨iv, hiv, heq⟩ := List.mem_map.mp he
    obtain ⟨i, v⟩ := iv
    obtain ⟨hlt, _⟩ := List.getElem?_eq_some.mp (List.mk_mem_enum_iff_getElem?.mp hiv)
    rw [← heq]
    simpa using hlt
  have hmapsort := List.map_insertionSort entryLe entryLe
    (fun e : ℚ × ℕ => (e.1, (rows.map Prod.fst).getD e.2 0))
    ((rows.map Prod.snd).enum.map (fun iv => (distSq q iv.2, iv.1)))
    (by
      intro a ha b hb
      have hA := hvalid a ha
      have hB := hvalid b hb
      have hiff := pid_getD_iff rows hmono a.2 hA b.2 hB
      simp only [entryLe]
      constructor
      · rintro (h | ⟨h1, h2⟩)
        · exact Or.inl h
        · exact Or.inr ⟨h1, hiff.mp h2⟩
      · rintro (h | ⟨h1, h2⟩)
        · exact Or.inl h
        · exact Or.inr ⟨h1, hiff.mpr h2⟩)
  rw [hmapsort]
  congr 1
  rw [List.enum_map, List.map_map, List.map_map]
  rw [← enum_map_snd_comp rows (fun it => (distSq q it.2, it.1))]
  apply List.map_congr_left
  intro ie hie
  obtain ⟨i, it⟩ := ie
  obtain ⟨hlt, hget⟩ := List.getElem?_eq_some.mp (List.mk_mem_enum_iff_getElem?.mp hie)
  have hpid : (rows.map Prod.fst).getD i 0 = it.1 := by
    rw [List.getD_eq_getElem?_getD, List.getElem?_map,
      List.getElem?_eq_getElem hlt, hget]
    rfl
  simp [hpid]
  rw [List.getElem?_eq_getElem hlt, hget]
  rfl

theorem snd_mem_of_mem_enum {α : Type} {l : List α} {n : ℕ} {a : α}
    (h : (n, a) ∈ l.enum) : a ∈ l := by
  obtain ⟨hlt, hget⟩ := List.getElem?_eq_some.mp (List.mk_mem_enum_iff_getElem?.mp h)
  rw [← hget]
  exact List.getElem_mem hlt

theorem subset_format_ids (normalize : Bool) (pids : List ℕ) (pairs : List (ℚ × ℕ))
    (hvalid : ∀ e ∈ pairs, e.2 < pids.length) :
    (subset_format normalize pids none pairs).map SearchResult.product_id
      = pairs.map (fun e => pids.getD e.2 0) := by
  unfold subset_format
  rw [filterMap_eq_map _
    (fun rp : ℕ × (ℚ × ℕ) => SearchResult.mk (pids.getD rp.2.2 0) rp.2.1
      (distance_to_similarity normalize rp.2.1) rp.1) _ ?_]
  · rw [List.map_map]
    exact enum_map_snd_comp pairs (fun e => pids.getD e.2 0)
  · intro rp hrp
    obtain ⟨n, e⟩ := rp
    have he : e ∈ pairs := snd_mem_of_mem_enum hrp
    have hlt := hvalid e he
    dsimp only
    rw [dictGet_enum_getD pids e.2 hlt]
    rfl

theorem format_results_ids (normalize : Bool) (pids : List ℕ) (pairs : List (ℚ × ℕ))
    (hvalid : ∀ e ∈ pairs, e.2 < pids.length) :
    (format_results normalize (pairs.map Prod.fst) (pairs.map (fun p => (p.2 : ℤ)))
        pids.enum none).map SearchResult.product_id
      = pairs.map (fun e => pids.getD e.2 0) := by
  unfold format_results
  rw [List.zip_map']
  rw [filterMap_eq_map _
    (fun rp : ℕ × (ℚ × ℤ) => SearchResult.mk (pids.getD rp.2.2.toNat 0) rp.2.1
      (distance_to_similarity normalize rp.2.1) rp.1) _ ?_]
  · rw [List.map_map]
    have hcomp : (SearchResult.product_id ∘ fun rp : ℕ × (ℚ × ℤ) =>
        SearchResult.mk (pids.getD rp.2.2.toNat 0) rp.2.1
          (distance_to_similarity normalize rp.2.1) rp.1)
        = (fun ie : ℕ × (ℚ × ℤ) => pids.getD ie.2.2.toNat 0) := rfl
    rw [hcomp, enum_map_snd_comp (pairs.map (fun a => (a.1, (a.2 : ℤ))))
      (fun e2 : ℚ × ℤ => pids.getD e2.2.toNat 0), List.map_map]
    apply List.map_congr_left
    intro e _
    simp [Function.comp]
  · intro rp hrp
    obtain ⟨n, e2⟩ := rp
    have he2 : e2 ∈ pairs.map (fun a => (a.1, (a.2 : ℤ))) := snd_mem_of_mem_enum hrp
    obtain ⟨e, he, heq⟩ := List.mem_map.mp he2
    subst heq
    have hne : ¬((e.2 : ℤ) = -1) := by omega
    dsimp only
    rw [if_neg hne, Int.toNat_natCast, dictGet_enum_getD pids e.2 (hvalid e he)]
    rfl

theorem reRank_map_pid (l : List SearchResult) :
    (reRank l).map SearchResult.product_id = l.map SearchResult.product_id := by
  rw [reRank, List.map_map]
  exact enum_map_snd_comp l SearchResult.product_id

theorem index_search_pid_ids (q : Vec) (rows : Catalog) (m : ℕ)
    (hmono : List.Pairwise (· < ·) (rows.map Prod.fst)) :
    (index_search (rows.map Prod.snd) q m).map (fun e => (rows.map Prod.fst).getD e.2 0)
      = (List.take m (List.insertionSort entryLe
          (rows.map (fun it => (distSq q it.2, it.1))))).map Prod.snd := by
  unfold index_search
  rw [show (fun e : ℚ × ℕ => (rows.map Prod.fst).getD e.2 0)
      = Prod.snd ∘ (fun e : ℚ × ℕ => (e.1, (rows.map Prod.fst).getD e.2 0)) from rfl]
  rw [← List.map_map, List.map_take, sort_pos_to_pid q rows hmono]

theorem search_res_ids (cat : Catalog) (query : Vec) (sk : ℕ)
    (hmono : List.Pairwise (· < ·) (cat.map Prod.fst)) :
    (search true (cat.map Prod.snd) ((cat.map Prod.fst).enum) query sk none).map
        SearchResult.product_id
      = (List.take (min sk cat.length) (List.insertionSort entryLe
          (cat.map (fun it => (distSq (normalize_vector query) it.2, it.1))))).map
          Prod.snd := by
  unfold search
  simp only [eq_self_iff_true, if_true]
  rw [format_results_ids true (cat.map Prod.fst)
    (index_search (cat.map Prod.snd) (normalize_vector query)
      (min sk (cat.map Prod.snd).length))
    (by
      intro e he
      have := index_search_snd_lt (cat.map Prod.snd) (normalize_vector query)
        (min sk (cat.map Prod.snd).length) e he
      rw [List.length_map] at this ⊢
      exact this)]
  rw [index_search_pid_ids (normalize_vector query) cat
    (min sk (cat.map Prod.snd).length) hmono]
  rw [List.length_map]

/-- C1 amended: the forced `subset` and `postfilter` strategies return the
same top-k list of product ids provided every product satisfying the
filter lies within the `min(5k, ntotal)` nearest neighbors retrieved by
the postfilter oversampling (`hcover`); the catalog rows are in ascending
id order (`hmono`, the `ORDER BY id` queries), the filtered set is
nonempty, and the query norm is not exactly on the `1e-8` normalization
guard boundary (`hq`, where the two strategies' guards differ). -/
theorem C1_strategy_equivalence (cat : Catalog) (query : Vec) (pred : ℕ → Bool)
    (k : ℕ) (hmono : List.Pairwise (· < ·) (cat.map Prod.fst))
    (hq : normSq query ≠ 1/10^16)
    (hne : cat.filter (fun it => pred it.1) ≠ [])
    (hcover : ((List.insertionSort entryLe
        (cat.map (fun it => (distSq (normalize_vector query) it.2, it.1)))).drop
        (min (k * 5) cat.length)).filter (fun e => pred e.2) = []) :
    (search_with_filters true cat query pred k none (some "subset")).results.map
        SearchResult.product_id
      = (search_with_filters true cat query pred k none
          (some "postfilter")).results.map SearchResult.product_id := by
  have hflen : ¬((cat.filter (fun it => pred it.1)).length = 0) := fun h =>
    hne (List.length_eq_zero.mp h)
  have hmlen : ¬(((cat.filter (fun it => pred it.1)).map Prod.fst).length = 0) := by
    rw [List.length_map]
    exact hflen
  have hfmono : List.Pairwise (· < ·)
      ((cat.filter (fun it => pred it.1)).map Prod.fst) :=
    List.Pairwise.sublist (List.Sublist.map Prod.fst (List.filter_sublist cat)) hmono
  have hstr1 : ((some "subset" : Option String) = some "subset") = True := by simp
  have hstr2 : ((some "postfilter" : Option String) = some "subset") = False := by
    simp
  have hstr3 : ((some "postfilter" : Option String) = some "postfilter") = True := by
    simp
  have hlenF : ((((cat.filter (fun it => pred it.1)).map Prod.fst)).length = 0)
      = False := eq_false hmlen
  have hdisp1 : search_with_filters true cat query pred k none (some "subset")
      = search_subset_strategy true cat query pred k none := by
    simp only [search_with_filters, hlenF, hstr1, hstr2, hstr3, if_true, if_false,
      eq_self_iff_true, Bool.false_eq_true]
  have hdisp2 : search_with_filters true cat query pred k none (some "postfilter")
      = search_postfilter_strategy true cat query pred k none := by
    simp only [search_with_filters, hlenF, hstr1, hstr2, hstr3, if_true, if_false,
      eq_self_iff_true, Bool.false_eq_true]
  have hsortlen : (List.insertionSort entryLe
      ((cat.filter (fun it => pred it.1)).map
        (fun it => (distSq (normalize_vector query) it.2, it.1)))).length
      = ((cat.filter (fun it => pred it.1)).map Prod.snd).length := by
    rw [(List.perm_insertionSort entryLe _).length_eq, List.length_map,
      List.length_map]
  have hsub : (search_subset_strategy true cat query pred k none).results.map
      SearchResult.product_id
      = (List.take k (List.insertionSort entryLe
          ((cat.filter (fun it => pred it.1)).map
            (fun it => (distSq (normalize_vector query) it.2, it.1))))).map
          Prod.snd := by
    have hstep : (search_subset_strategy true cat query pred k none).results
        = subset_format true ((cat.filter (fun it => pred it.1)).map Prod.fst) none
            (index_search ((cat.filter (fun it => pred it.1)).map Prod.snd)
              (normalize_vector query)
              (min k ((cat.filter (fun it => pred it.1)).map Prod.snd).length)) := by
      simp only [search_subset_strategy]
      rw [if_neg hflen, if_true, subset_prepare_eq query hq]
    rw [hstep]
    rw [subset_format_ids true _ _ (by
      intro e he
      have h1 := index_search_snd_lt
        ((cat.filter (fun it => pred it.1)).map Prod.snd) (normalize_vector query)
        (min k ((cat.filter (fun it => pred it.1)).map Prod.snd).length) e he
      rw [List.length_map] at h1 ⊢
      exact h1)]
    rw [index_search_pid_ids (normalize_vector query)
      (cat.filter (fun it => pred it.1)) _ hfmono]
    congr 1
    rw [← hsortlen]
    exact take_min_length k _
  have hpost : (search_postfilter_strategy true cat query pred k none).results.map
      SearchResult.product_id
      = (List.take k (List.insertionSort entryLe
          ((cat.filter (fun it => pred it.1)).map
            (fun it => (distSq (normalize_vector query) it.2, it.1))))).map
          Prod.snd := by
    simp only [search_postfilter_strategy]
    rw [reRank_map_pid, List.map_take]
    have hc1 : (fun r : SearchResult => pred r.product_id)
        = (pred ∘ SearchResult.product_id) := rfl
    rw [hc1, ← List.filter_map]
    rw [search_res_ids cat query (min (k * 5) (cat.map Prod.snd).length) hmono]
    have hm2 : min (min (k * 5) ((cat.map Prod.snd).length)) cat.length
        = min (k * 5) cat.length := by
      rw [List.length_map, min_assoc, min_self]
    rw [hm2]
    rw [List.filter_map]
    have hc2 : (pred ∘ (Prod.snd : ℚ × ℕ → ℕ)) = (fun e : ℚ × ℕ => pred e.2) := rfl
    rw [hc2]
    have hsplit : (List.insertionSort entryLe
        (cat.map (fun it => (distSq (normalize_vector query) it.2, it.1)))).filter
          (fun e : ℚ × ℕ => pred e.2)
        = ((List.insertionSort entryLe
            (cat.map (fun it => (distSq (normalize_vector query) it.2, it.1)))).take
              (min (k * 5) cat.length)).filter (fun e : ℚ × ℕ => pred e.2) := by
      conv_lhs => rw [← List.take_append_drop (min (k * 5) cat.length)
        (List.insertionSort entryLe
          (cat.map (fun it => (distSq (normalize_vector query) it.2, it.1))))]
      rw [List.filter_append, hcover, List.append_nil]
    rw [← hsplit]
    rw [sort_filter_comm]
    rw [List.filter_map]
    have hc3 : ((fun e : ℚ × ℕ => pred e.2) ∘
        (fun it : ℕ × Vec => (distSq (normalize_vector query) it.2, it.1)))
        = (fun it : ℕ × Vec => pred it.1) := rfl
    rw [hc3, List.map_take]
  rw [hdisp1, hdisp2, hsub, hpost]

/-- Witness for C1's amended theorem on a concrete two-product catalog
where the cover condition holds. -/
theorem C1_strategy_equivalence_witness :
    (search_with_filters true [(1, [1]), (2, [2])] [1] (fun _ => true) 1 none
        (some "subset")).results.map SearchResult.product_id
      = (search_with_filters true [(1, [1]), (2, [2])] [1] (fun _ => true) 1 none
          (some "postfilter")).results.map SearchResult.product_id :=
  C1_strategy_equivalence [(1, [1]), (2, [2])] [1] (fun _ => true) 1
    (by decide)
    (by norm_num [normSq])
    (by simp)
    (by norm_num [normalize_vector, normSq, divByNorm, ratSqrt, Nat.sqrt, distSq,
      entryLe, List.insertionSort, List.orderedInsert])

end Knytt
